import Mathlib

/-!
Verification of the concurrent node-discovery engine in `network/nodes.py`
(`NodeDownloader`).

The embedding below translates the engine's data model and operations:

* `DState` — the shared mutable state of a `NodeDownloader`
  (`visited_hosts`, `remaining_api_clients`, `public_key_to_node_info_map`,
  `busy_thread_count`).
* `popNext` — `NodeDownloader._pop_next_api_client` (lock-held pop).
* `update` — `NodeDownloader._update` (lock-held merge of a probe result).
* `probeTry` / `runProbe` — the `try:` block of `NodeDownloader._discover_thread`
  together with its `except` clause; external collaborators (the blockchain
  API client, the symbolchain `NetworkLocator`, the randomly chosen strong
  client) are parameters of a `ProbeEnv` oracle, each fallible call returning
  `Except ExcKind _` where `ExcKind` enumerates the exception types named in
  the `except` tuple (`RequestException`, `TimeoutError`,
  `ConnectionRefusedError`).
* `applyMerge` — the `with self.lock:` section at the end of one
  `_discover_thread` iteration.
* `Step` / `Run` — a labeled small-step relation describing interleaved
  executions by any number of worker threads; `inflight` is the multiset of
  clients popped but not yet merged.
* `workerLoop` / `discover` — the sequential (single worker) execution of
  `_discover_thread` and the seeding in `NodeDownloader.discover`.
* `save` — the record sequence written by `NodeDownloader.save`.
-/

namespace NodeDiscovery

/-- A blockchain API client handle bound to one host
(`self.api_client_class(host)` in the Python source).  Only `node_host`
is consulted by the coordination logic. -/
structure ApiClient where
  node_host : String
  deriving DecidableEq, Repr, Inhabited

/-- The `extraData` block attached to every node-info payload:
`{'balance': 0, 'height': 0, 'finalizedHeight': 0}`. -/
structure ExtraData where
  balance : Nat
  height : Nat
  finalizedHeight : Nat
  deriving DecidableEq, Repr, Inhabited

/-- The node-info JSON payload (`json_node`), restricted to the fields the
engine reads or writes: `metaData.networkId`, `identity.public-key`,
`identity.node-public-key`, `identity.name`, `networkIdentifier`,
`publicKey`, and the attached `extraData` block. -/
structure JsonNode where
  metaDataNetworkId : String
  identityPublicKey : String
  identityNodePublicKey : Option String
  identityName : String
  networkIdentifier : String
  publicKey : String
  extraData : ExtraData
  deriving DecidableEq, Repr, Inhabited

/-- Result of `get_account_info`: `remote_status`, `public_key`, `balance`. -/
structure AccountInfo where
  remote_status : String
  public_key : String
  balance : Nat
  deriving DecidableEq, Repr, Inhabited

/-- A located network (result of `NetworkLocator.find_by_identifier`); the
engine only uses its `public_key_to_address` method. -/
structure Network where
  public_key_to_address : String → String

/-- An entry of a fetched peer list (`json_peer`); an opaque payload handed
to `api_client_class.from_node_info_dict`. -/
abbrev JsonPeer := String

/-- The exception types listed in the `except` tuple of `_discover_thread`:
`(RequestException, TimeoutError, ConnectionRefusedError)`. -/
inductive ExcKind where
  | requestException
  | timeoutError
  | connectionRefusedError
  deriving DecidableEq, Repr

/-- Oracle for the external collaborators consulted during one probe:
the node's own API client (`get_node_info`, `get_peers`, `get_chain_height`,
`get_finalization_info`), the symbolchain `NetworkLocator` over the NEM and
Symbol network tables, and the strong client chosen by `random.choice`
(its `get_account_info`, with and without `forwarded=True`).  Each fallible
call yields `Except ExcKind _`. -/
structure ProbeEnv where
  get_node_info : Except ExcKind JsonNode
  locate_nem : String → Except ExcKind Network
  locate_symbol : String → Except ExcKind Network
  get_account_info_forwarded : String → Except ExcKind AccountInfo
  get_account_info : String → Except ExcKind (Option AccountInfo)
  get_peers : Except ExcKind (List JsonPeer)
  get_chain_height : Except ExcKind Nat
  get_finalization_height : Except ExcKind Nat

/-- The local variables of `_discover_thread` visible to the `except`
clause and the merge section at the moment an exception is raised:
`is_reachable`, `json_node`, `main_public_key`. -/
structure TryState where
  is_reachable : Bool
  json_node : JsonNode
  main_public_key : String
  deriving Repr

/-- The values flowing from one probe into the merge section:
`is_reachable`, `main_public_key`, `json_node`, `json_peers`. -/
structure ProbeResult where
  is_reachable : Bool
  main_public_key : String
  json_node : JsonNode
  json_peers : List JsonPeer
  deriving Repr

/-- The shared state of one `NodeDownloader`:
`self.visited_hosts` (a set), `self.remaining_api_clients` (a list used as a
FIFO queue), `self.public_key_to_node_info_map` (an insertion-ordered dict,
modelled as an association list), `self.busy_thread_count` (an integer). -/
structure DState where
  visited_hosts : Finset String
  remaining_api_clients : List ApiClient
  public_key_to_node_info_map : List (String × JsonNode)
  busy_thread_count : Int
  deriving DecidableEq

/-- Python-dict insertion on the association list: overwriting an existing
key keeps its original position, a new key is appended at the end
(`self.public_key_to_node_info_map[public_key] = json_node`). -/
def dictInsert (k : String) (v : JsonNode) :
    List (String × JsonNode) → List (String × JsonNode)
  | [] => [(k, v)]
  | kv :: rest =>
      if kv.1 = k then (k, v) :: rest else kv :: dictInsert k v rest

/-- Python-dict lookup on the association list. -/
def dictLookup (k : String) : List (String × JsonNode) → Option JsonNode
  | [] => none
  | kv :: rest => if kv.1 = k then some kv.2 else dictLookup k rest

/-- The `while self.remaining_api_clients:` loop inside
`_pop_next_api_client`: pop heads until one whose host is not in
`visited_hosts` is found (returned together with the remaining queue), or
the queue is exhausted. -/
def popLoop (visited : Finset String) :
    List ApiClient → Option ApiClient × List ApiClient
  | [] => (none, [])
  | api_client :: rest =>
      if api_client.node_host ∈ visited then popLoop visited rest
      else (some api_client, rest)

/-- Translation of `NodeDownloader._pop_next_api_client` (called with the lock held):
drain duplicate/visited heads; on success add the host to `visited_hosts`,
increment `busy_thread_count` and return the client; otherwise return
`none` with the (now exhausted) queue. -/
def popNext (s : DState) : Option ApiClient × DState :=
  match popLoop s.visited_hosts s.remaining_api_clients with
  | (none, rest) => (none, { s with remaining_api_clients := rest })
  | (some api_client, rest) =>
      (some api_client,
        { s with
            remaining_api_clients := rest
            visited_hosts := insert api_client.node_host s.visited_hosts
            busy_thread_count := s.busy_thread_count + 1 })

/-- One iteration of the `for json_peer in json_peers:` loop in
`NodeDownloader._update`: build a peer client via
`api_client_class.from_node_info_dict` (which may yield nothing) and append
it only if its host is neither in `visited_hosts` nor already carried by a
queued client. -/
def updateStep (fromPeer : JsonPeer → Option ApiClient)
    (t : DState) (json_peer : JsonPeer) : DState :=
  match fromPeer json_peer with
  | none => t
  | some peer_api_client =>
      if peer_api_client.node_host ∉ t.visited_hosts ∧
          ¬ (t.remaining_api_clients.any
              fun api_client => peer_api_client.node_host = api_client.node_host)
      then { t with
              remaining_api_clients := t.remaining_api_clients ++ [peer_api_client] }
      else t

/-- Translation of `NodeDownloader._update` (called with the lock held): store the record
under the resolved public key, then run the peer-enqueue loop. -/
def update (fromPeer : JsonPeer → Option ApiClient) (public_key : String)
    (json_node : JsonNode) (json_peers : List JsonPeer) (s : DState) : DState :=
  json_peers.foldl (updateStep fromPeer)
    { s with
        public_key_to_node_info_map :=
          dictInsert public_key json_node s.public_key_to_node_info_map }

/-- The `with self.lock:` section closing one `_discover_thread` iteration:
call `_update` when `is_reachable`, then decrement `busy_thread_count`. -/
def applyMerge (fromPeer : JsonPeer → Option ApiClient)
    (r : ProbeResult) (s : DState) : DState :=
  let t := if r.is_reachable
    then update fromPeer r.main_public_key r.json_node r.json_peers s
    else s
  { t with busy_thread_count := t.busy_thread_count - 1 }

/-- The identity-resolution section of the `try:` block (after
`get_node_info` succeeded and the zeroed `extraData` block was attached):
for NEM, locate the network by `metaData.networkId`, query the strong
client with `forwarded=True`, and on `remote_status == 'ACTIVE'` swap the
account public key into `identity.public-key` (recording the original under
`identity.node-public-key`); for Symbol, locate the network by
`networkIdentifier` and use the reported `publicKey`.  Yields the located
network, `main_public_key`, and the (possibly rewritten) node payload; an
exception carries the `TryState` visible to the `except` clause
(`is_reachable` still `false`). -/
def identityPhase (is_nem : Bool) (env : ProbeEnv) (node1 : JsonNode) :
    Except (ExcKind × TryState) (Network × String × JsonNode) :=
  if is_nem then
    match env.locate_nem node1.metaDataNetworkId with
    | .error e => .error (e, ⟨false, node1, ""⟩)
    | .ok network =>
        match env.get_account_info_forwarded
            (network.public_key_to_address node1.identityPublicKey) with
        | .error e => .error (e, ⟨false, node1, ""⟩)
        | .ok main_account_info =>
            let node2 :=
              if main_account_info.remote_status = "ACTIVE" then
                { node1 with
                    identityNodePublicKey := some node1.identityPublicKey
                    identityPublicKey := main_account_info.public_key }
              else node1
            .ok (network, node2.identityPublicKey, node2)
  else
    match env.locate_symbol node1.networkIdentifier with
    | .error e => .error (e, ⟨false, node1, ""⟩)
    | .ok network => .ok (network, node1.publicKey, node1)

/-- The tail of the `try:` block, after `is_reachable = True`: fetch the
peer list, the (non-forwarded) balance of `main_public_key` via the strong
client (`0` when no account is found), the chain height, and — for Symbol
only — the finalized height.  Each assignment mutates `extraData` in
place, so an exception carries the payload with exactly the fields set
before the failure (`is_reachable` now `true`). -/
def fetchPhase (is_nem : Bool) (env : ProbeEnv) (network : Network)
    (main_public_key : String) (node2 : JsonNode) :
    Except (ExcKind × TryState) ProbeResult :=
  match env.get_peers with
  | .error e => .error (e, ⟨true, node2, main_public_key⟩)
  | .ok json_peers =>
      match env.get_account_info (network.public_key_to_address main_public_key) with
      | .error e => .error (e, ⟨true, node2, main_public_key⟩)
      | .ok main_account_info =>
          let bal := match main_account_info with
            | some info => info.balance
            | none => 0
          let node3 := { node2 with extraData := { node2.extraData with balance := bal } }
          match env.get_chain_height with
          | .error e => .error (e, ⟨true, node3, main_public_key⟩)
          | .ok h =>
              let node4 := { node3 with extraData := { node3.extraData with height := h } }
              if is_nem then
                .ok ⟨true, main_public_key, node4, json_peers⟩
              else
                match env.get_finalization_height with
                | .error e => .error (e, ⟨true, node4, main_public_key⟩)
                | .ok fh =>
                    .ok ⟨true, main_public_key,
                      { node4 with
                          extraData := { node4.extraData with finalizedHeight := fh } },
                      json_peers⟩

/-- The whole `try:` block of `_discover_thread`: fetch node-info, attach
the zeroed `extraData` block, resolve identity, set `is_reachable`, then
run the remaining fetches.  `.error` is an exception escaping the block,
paired with the local-variable state the `except` clause observes. -/
def probeTry (is_nem : Bool) (env : ProbeEnv) :
    Except (ExcKind × TryState) ProbeResult :=
  match env.get_node_info with
  | .error e => .error (e, ⟨false, default, ""⟩)
  | .ok node0 =>
      match identityPhase is_nem env { node0 with extraData := ⟨0, 0, 0⟩ } with
      | .error es => .error es
      | .ok (network, main_public_key, node2) =>
          fetchPhase is_nem env network main_public_key node2

/-- Whether an exception type is caught by the `except
(RequestException, TimeoutError, ConnectionRefusedError)` clause. -/
def caughtByExcept (e : ExcKind) : Bool :=
  match e with
  | .requestException => true
  | .timeoutError => true
  | .connectionRefusedError => true

/-- The probe step of one `_discover_thread` iteration: run the `try:`
block; the `except` clause sets `json_peers = []` and otherwise leaves the
local variables as they were at the raise point. -/
def runProbe (is_nem : Bool) (env : ProbeEnv) : ProbeResult :=
  match probeTry is_nem env with
  | .ok r => r
  | .error (_, st) => ⟨st.is_reachable, st.main_public_key, st.json_node, []⟩

/-- One full `_discover_thread` iteration after a client was popped: the
`try:` block, the `except` clause for exception types it catches, and the
closing merge section.  An exception of a type not in the `except` tuple
would propagate out of the worker (`.error`). -/
def workerIteration (fromPeer : JsonPeer → Option ApiClient) (is_nem : Bool)
    (env : ProbeEnv) (s : DState) : Except ExcKind DState :=
  match probeTry is_nem env with
  | .ok r => .ok (applyMerge fromPeer r s)
  | .error (e, st) =>
      if caughtByExcept e then
        .ok (applyMerge fromPeer ⟨st.is_reachable, st.main_public_key, st.json_node, []⟩ s)
      else .error e

/-- Labels of the interleaved small-step relation: a pop that yields a
client, a pop that drains the queue without yielding one, and the merge of
one in-flight probe. -/
inductive Label where
  | popOk (c : ApiClient)
  | popNone
  | doMerge (c : ApiClient)

/-- System state for interleaved executions: the shared `DState` plus the
clients popped but not yet merged (one per worker currently mid-probe). -/
structure SysState where
  ds : DState
  inflight : List ApiClient

/-- Interleaved execution steps of the worker pool, parametrized by the
deterministic behaviour of the network (`world`: the probe outcome of each
client) and of `api_client_class.from_node_info_dict` (`fromPeer`).
`popOk`/`popNone` are `_pop_next_api_client` under the lock; `doMerge` is
the closing merge section of the worker holding `c`. -/
inductive Step (world : ApiClient → ProbeResult)
    (fromPeer : JsonPeer → Option ApiClient) :
    Label → SysState → SysState → Prop
  | popOk (c : ApiClient) (σ : SysState) (t : DState) :
      popNext σ.ds = (some c, t) →
      Step world fromPeer (.popOk c) σ ⟨t, c :: σ.inflight⟩
  | popNone (σ : SysState) (t : DState) :
      σ.ds.remaining_api_clients ≠ [] →
      popNext σ.ds = (none, t) →
      Step world fromPeer .popNone σ ⟨t, σ.inflight⟩
  | doMerge (c : ApiClient) (σ : SysState) :
      c ∈ σ.inflight →
      Step world fromPeer (.doMerge c) σ
        ⟨applyMerge fromPeer (world c) σ.ds, σ.inflight.erase c⟩

/-- A finite interleaved run: the reflexive-transitive closure of `Step`,
recording the labels taken. -/
inductive Run (world : ApiClient → ProbeResult)
    (fromPeer : JsonPeer → Option ApiClient) :
    SysState → List Label → SysState → Prop
  | nil (σ : SysState) : Run world fromPeer σ [] σ
  | cons (l : Label) (σ σ₁ σ₂ : SysState) (ls : List Label) :
      Step world fromPeer l σ σ₁ → Run world fromPeer σ₁ ls σ₂ →
      Run world fromPeer σ (l :: ls) σ₂

/-- The seed clients built at the top of `NodeDownloader.discover`:
one `api_client_class(node_descriptor.host)` per catalog entry, with no
deduplication. -/
def seedClients (hosts : List String) : List ApiClient :=
  hosts.map fun h => ⟨h⟩

/-- The downloader state right after seeding: empty visited set, the seed
clients queued in catalog order, empty result map, zero busy counter. -/
def seedState (hosts : List String) : DState :=
  { visited_hosts := ∅
    remaining_api_clients := seedClients hosts
    public_key_to_node_info_map := []
    busy_thread_count := 0 }

/-- Sequential (single-worker) execution of the `_discover_thread` loop,
with a fuel bound standing for elapsed iterations; the fixed-interval
sleeps are no-ops for a single worker.  The loop runs while
`remaining_api_clients or busy_thread_count` is truthy. -/
def workerLoop (world : ApiClient → ProbeResult)
    (fromPeer : JsonPeer → Option ApiClient) : Nat → DState → DState
  | 0, s => s
  | fuel + 1, s =>
      if s.remaining_api_clients ≠ [] ∨ s.busy_thread_count ≠ 0 then
        if s.remaining_api_clients = [] then workerLoop world fromPeer fuel s
        else
          match popNext s with
          | (none, t) => workerLoop world fromPeer fuel t
          | (some c, t) =>
              workerLoop world fromPeer fuel (applyMerge fromPeer (world c) t)
      else s

/-- Translation of `NodeDownloader.discover`, single-worker execution: seed the queue from
the catalog host list, start `thread_count` worker threads (started
unconditionally — the count is recorded as the first component), join them,
and return.  There is no abort path: the function always returns the final
state. -/
def discover (world : ApiClient → ProbeResult)
    (fromPeer : JsonPeer → Option ApiClient) (seedHosts : List String)
    (thread_count fuel : Nat) : Nat × DState :=
  (thread_count, workerLoop world fromPeer fuel (seedState seedHosts))

/-- The record sequence serialized by `NodeDownloader.save`:
`list(self.public_key_to_node_info_map.values())`, i.e. the map's values in
dict (insertion) order.  The `sort_keys='identity.name'` argument of
`json.dump` is a truthy value for a boolean parameter: it alphabetizes the
keys inside each serialized object and does not reorder this list. -/
def save (s : DState) : List JsonNode :=
  s.public_key_to_node_info_map.map Prod.snd

/-- The hosts of the clients returned by `popOk` steps of a run, in order. -/
def poppedHosts : List Label → List String
  | [] => []
  | .popOk c :: ls => c.node_host :: poppedHosts ls
  | .popNone :: ls => poppedHosts ls
  | .doMerge _ :: ls => poppedHosts ls

/-- A fixed trivial network behaviour, used to instantiate theorems at
concrete inputs: every probe is a hard failure. -/
def demoWorld : ApiClient → ProbeResult :=
  fun _ => ⟨false, "", default, []⟩

/-- A trivial `from_node_info_dict`: no peer payload yields a client. -/
def demoFromPeer : JsonPeer → Option ApiClient :=
  fun _ => none

theorem popLoop_none (visited : Finset String) (l : List ApiClient) :
    ∀ rest, popLoop visited l = (none, rest) → rest = [] := by
  induction l with
  | nil => intro rest h; simpa [popLoop] using h.symm
  | cons a l ih =>
      intro rest h
      by_cases ha : a.node_host ∈ visited
      · exact ih rest (by simpa [popLoop, ha] using h)
      · simp [popLoop, ha] at h

theorem popLoop_some (visited : Finset String) (l : List ApiClient) :
    ∀ c rest, popLoop visited l = (some c, rest) →
      c.node_host ∉ visited ∧ (c :: rest) <:+ l := by
  induction l with
  | nil => intro c rest h; simp [popLoop] at h
  | cons a l ih =>
      intro c rest h
      by_cases ha : a.node_host ∈ visited
      · rcases ih c rest (by simpa [popLoop, ha] using h) with ⟨h1, h2⟩
        exact ⟨h1, h2.trans (List.suffix_cons a l)⟩
      · rcases (by simpa [popLoop, ha] using h : a = c ∧ l = rest) with ⟨rfl, rfl⟩
        exact ⟨ha, List.suffix_refl _⟩

theorem popNext_some (s : DState) (c : ApiClient) (t : DState)
    (h : popNext s = (some c, t)) :
    c.node_host ∉ s.visited_hosts ∧
    t.visited_hosts = insert c.node_host s.visited_hosts ∧
    t.busy_thread_count = s.busy_thread_count + 1 ∧
    t.public_key_to_node_info_map = s.public_key_to_node_info_map ∧
    (c :: t.remaining_api_clients) <:+ s.remaining_api_clients := by
  unfold popNext at h
  rcases hp : popLoop s.visited_hosts s.remaining_api_clients with ⟨o, rest⟩
  rw [hp] at h
  cases o with
  | none => simp at h
  | some a =>
      rcases (by simpa using h : a = c ∧
          { s with
              remaining_api_clients := rest
              visited_hosts := insert a.node_host s.visited_hosts
              busy_thread_count := s.busy_thread_count + 1 } = t) with ⟨rfl, rfl⟩
      rcases popLoop_some s.visited_hosts s.remaining_api_clients a rest hp with ⟨h1, h2⟩
      exact ⟨h1, rfl, rfl, rfl, h2⟩

theorem popNext_none (s : DState) (t : DState)
    (h : popNext s = (none, t)) :
    t = { s with remaining_api_clients := [] } := by
  unfold popNext at h
  rcases hp : popLoop s.visited_hosts s.remaining_api_clients with ⟨o, rest⟩
  rw [hp] at h
  cases o with
  | none =>
      have hrest := popLoop_none s.visited_hosts s.remaining_api_clients rest hp
      subst hrest
      simpa using h.symm
  | some a => simp at h

theorem updateStep_visited (fromPeer : JsonPeer → Option ApiClient)
    (t : DState) (p : JsonPeer) :
    (updateStep fromPeer t p).visited_hosts = t.visited_hosts := by
  unfold updateStep
  rcases fromPeer p with _ | c
  · rfl
  · dsimp only
    split <;> rfl

theorem updateStep_busy (fromPeer : JsonPeer → Option ApiClient)
    (t : DState) (p : JsonPeer) :
    (updateStep fromPeer t p).busy_thread_count = t.busy_thread_count := by
  unfold updateStep
  rcases fromPeer p with _ | c
  · rfl
  · dsimp only
    split <;> rfl

theorem updateStep_map (fromPeer : JsonPeer → Option ApiClient)
    (t : DState) (p : JsonPeer) :
    (updateStep fromPeer t p).public_key_to_node_info_map =
      t.public_key_to_node_info_map := by
  unfold updateStep
  rcases fromPeer p with _ | c
  · rfl
  · dsimp only
    split <;> rfl

theorem foldl_updateStep_visited (fromPeer : JsonPeer → Option ApiClient)
    (peers : List JsonPeer) :
    ∀ t : DState,
      (peers.foldl (updateStep fromPeer) t).visited_hosts = t.visited_hosts := by
  induction peers with
  | nil => intro t; rfl
  | cons p rest ih =>
      intro t
      rw [List.foldl_cons, ih, updateStep_visited]

theorem foldl_updateStep_busy (fromPeer : JsonPeer → Option ApiClient)
    (peers : List JsonPeer) :
    ∀ t : DState,
      (peers.foldl (updateStep fromPeer) t).busy_thread_count =
        t.busy_thread_count := by
  induction peers with
  | nil => intro t; rfl
  | cons p rest ih =>
      intro t
      rw [List.foldl_cons, ih, updateStep_busy]

theorem foldl_updateStep_map (fromPeer : JsonPeer → Option ApiClient)
    (peers : List JsonPeer) :
    ∀ t : DState,
      (peers.foldl (updateStep fromPeer) t).public_key_to_node_info_map =
        t.public_key_to_node_info_map := by
  induction peers with
  | nil => intro t; rfl
  | cons p rest ih =>
      intro t
      rw [List.foldl_cons, ih, updateStep_map]

theorem update_visited (fromPeer : JsonPeer → Option ApiClient)
    (pk : String) (n : JsonNode) (peers : List JsonPeer) (s : DState) :
    (update fromPeer pk n peers s).visited_hosts = s.visited_hosts := by
  unfold update
  rw [foldl_updateStep_visited]

theorem update_busy (fromPeer : JsonPeer → Option ApiClient)
    (pk : String) (n : JsonNode) (peers : List JsonPeer) (s : DState) :
    (update fromPeer pk n peers s).busy_thread_count = s.busy_thread_count := by
  unfold update
  rw [foldl_updateStep_busy]

theorem update_map (fromPeer : JsonPeer → Option ApiClient)
    (pk : String) (n : JsonNode) (peers : List JsonPeer) (s : DState) :
    (update fromPeer pk n peers s).public_key_to_node_info_map =
      dictInsert pk n s.public_key_to_node_info_map := by
  unfold update
  rw [foldl_updateStep_map]

theorem applyMerge_visited (fromPeer : JsonPeer → Option ApiClient)
    (r : ProbeResult) (s : DState) :
    (applyMerge fromPeer r s).visited_hosts = s.visited_hosts := by
  unfold applyMerge
  dsimp only
  split
  · exact update_visited ..
  · rfl

theorem step_visited_subset (world : ApiClient → ProbeResult)
    (fromPeer : JsonPeer → Option ApiClient) (l : Label) (σ σ₁ : SysState)
    (h : Step world fromPeer l σ σ₁) :
    σ.ds.visited_hosts ⊆ σ₁.ds.visited_hosts := by
  cases h with
  | popOk c σ t hp =>
      rcases popNext_some _ _ _ hp with ⟨-, h2, -⟩
      dsimp only
      rw [h2]
      exact Finset.subset_insert _ _
  | popNone σ t hne hp =>
      rw [popNext_none _ _ hp]
  | doMerge c σ hc =>
      dsimp only
      rw [applyMerge_visited]

theorem run_popped_not_visited (world : ApiClient → ProbeResult)
    (fromPeer : JsonPeer → Option ApiClient) (σ : SysState)
    (ls : List Label) (σ₂ : SysState) (h : Run world fromPeer σ ls σ₂) :
    ∀ hst ∈ poppedHosts ls, hst ∉ σ.ds.visited_hosts := by
  induction h with
  | nil σ => simp [poppedHosts]
  | cons l σ σ₁ σ₂ ls hstep hrun ih =>
      have hmono := step_visited_subset _ _ _ _ _ hstep
      cases hstep with
      | popOk c σ t hp =>
          intro hst hmem
          rcases (by simpa [poppedHosts] using hmem :
              hst = c.node_host ∨ hst ∈ poppedHosts ls) with rfl | hmem2
          · exact (popNext_some _ _ _ hp).1
          · exact fun hv => ih hst hmem2 (hmono hv)
      | popNone σ t hne hp =>
          intro hst hmem
          exact fun hv => ih hst (by simpa [poppedHosts] using hmem) (hmono hv)
      | doMerge c σ hc =>
          intro hst hmem
          exact fun hv => ih hst (by simpa [poppedHosts] using hmem) (hmono hv)

theorem run_popped_nodup (world : ApiClient → ProbeResult)
    (fromPeer : JsonPeer → Option ApiClient) (σ : SysState)
    (ls : List Label) (σ₂ : SysState) (h : Run world fromPeer σ ls σ₂) :
    (poppedHosts ls).Nodup := by
  induction h with
  | nil σ => simp [poppedHosts]
  | cons l σ σ₁ σ₂ ls hstep hrun ih =>
      cases hstep with
      | popOk c σ t hp =>
          have hfresh := run_popped_not_visited _ _ _ _ _ hrun
          have hcv : c.node_host ∈ t.visited_hosts := by
            rw [(popNext_some _ _ _ hp).2.1]
            exact Finset.mem_insert_self _ _
          refine List.Nodup.cons ?_ ih
          intro hmem
          exact hfresh c.node_host hmem hcv
      | popNone σ t hne hp => exact ih
      | doMerge c σ hc => exact ih

/-- C1: each distinct host is probed at most once per run: `popNext` never
returns a client whose host is already in `visited_hosts` and adds the
returned client's host to `visited_hosts`; no step of the system ever
removes a host from `visited_hosts`; and consequently the hosts dequeued by
`popOk` steps over any run are pairwise distinct, no matter how many peer
lists reference a host. -/
theorem C1_dedup_probing (world : ApiClient → ProbeResult)
    (fromPeer : JsonPeer → Option ApiClient) :
    (∀ s c t, popNext s = (some c, t) →
        c.node_host ∉ s.visited_hosts ∧ c.node_host ∈ t.visited_hosts) ∧
    (∀ l σ σ₁, Step world fromPeer l σ σ₁ →
        σ.ds.visited_hosts ⊆ σ₁.ds.visited_hosts) ∧
    (∀ σ ls σ₂, Run world fromPeer σ ls σ₂ → (poppedHosts ls).Nodup) := by
  refine ⟨?_, ?_, ?_⟩
  · intro s c t h
    rcases popNext_some s c t h with ⟨h1, h2, -⟩
    exact ⟨h1, by rw [h2]; exact Finset.mem_insert_self _ _⟩
  · exact fun l σ σ₁ h => step_visited_subset _ _ _ _ _ h
  · exact fun σ ls σ₂ h => run_popped_nodup _ _ _ _ _ h

/-- The state obtained by popping the single seed `"a"`. -/
def w1State : DState :=
  { visited_hosts := {"a"}
    remaining_api_clients := []
    public_key_to_node_info_map := []
    busy_thread_count := 1 }

theorem C1_dedup_probing_witness :
    ("a" : String) ∉ (seedState ["a"]).visited_hosts ∧
    ("a" : String) ∈ w1State.visited_hosts :=
  (C1_dedup_probing demoWorld demoFromPeer).1 (seedState ["a"]) ⟨"a"⟩ w1State
    (by decide)

theorem seedClients_hosts (hosts : List String) :
    (seedClients hosts).map ApiClient.node_host = hosts := by
  induction hosts with
  | nil => rfl
  | cons a l ih =>
      show ApiClient.node_host ⟨a⟩ :: (seedClients l).map ApiClient.node_host = a :: l
      rw [ih]

/-- The at-most-once invariant: a host appears at most once among the
hosts currently queued together with the visited set. -/
def AtMostOnce (s : DState) : Prop :=
  (s.remaining_api_clients.map ApiClient.node_host).Nodup ∧
  ∀ c ∈ s.remaining_api_clients, c.node_host ∉ s.visited_hosts

instance (s : DState) : Decidable (AtMostOnce s) := by
  unfold AtMostOnce
  infer_instance

theorem foldl_updateStep_append (fromPeer : JsonPeer → Option ApiClient)
    (peers : List JsonPeer) :
    ∀ t : DState, ∃ new : List ApiClient,
      (peers.foldl (updateStep fromPeer) t).remaining_api_clients =
        t.remaining_api_clients ++ new ∧
      (new.map ApiClient.node_host).Nodup ∧
      ∀ c ∈ new, (∃ p ∈ peers, fromPeer p = some c) ∧
        c.node_host ∉ t.visited_hosts ∧
        ∀ a ∈ t.remaining_api_clients, c.node_host ≠ a.node_host := by
  induction peers with
  | nil => intro t; exact ⟨[], by simp, by simp, by simp⟩
  | cons p rest ih =>
      intro t
      rcases hfp : fromPeer p with _ | c
      · have hstep : updateStep fromPeer t p = t := by
          unfold updateStep
          rw [hfp]
        rcases ih t with ⟨new, h1, h2, h3⟩
        refine ⟨new, ?_, h2, ?_⟩
        · rw [List.foldl_cons, hstep]
          exact h1
        · intro c hc
          rcases h3 c hc with ⟨⟨q, hq, hq2⟩, hv, hr⟩
          exact ⟨⟨q, List.mem_cons_of_mem _ hq, hq2⟩, hv, hr⟩
      · by_cases hguard : c.node_host ∉ t.visited_hosts ∧
            ¬ (t.remaining_api_clients.any fun a => c.node_host = a.node_host)
        · have hstep : updateStep fromPeer t p =
              { t with remaining_api_clients := t.remaining_api_clients ++ [c] } := by
            unfold updateStep
            rw [hfp]
            exact if_pos hguard
          rcases ih { t with remaining_api_clients := t.remaining_api_clients ++ [c] }
            with ⟨new, h1, h2, h3⟩
          have hnotc : ∀ d ∈ new, d.node_host ≠ c.node_host := by
            intro d hd
            exact (h3 d hd).2.2 c (by simp)
          refine ⟨c :: new, ?_, ?_, ?_⟩
          · rw [List.foldl_cons, hstep, h1]
            simp
          · refine List.Nodup.cons ?_ h2
            intro hmem
            rcases List.mem_map.mp hmem with ⟨d, hd, hdc⟩
            exact hnotc d hd hdc
          · intro d hd
            rcases List.mem_cons.mp hd with rfl | hd2
            · refine ⟨⟨p, List.mem_cons_self _ _, hfp⟩, hguard.1, ?_⟩
              intro a ha hEq
              exact hguard.2 (List.any_eq_true.mpr ⟨a, ha, decide_eq_true hEq⟩)
            · rcases h3 d hd2 with ⟨⟨q, hq, hq2⟩, hv, hr⟩
              refine ⟨⟨q, List.mem_cons_of_mem _ hq, hq2⟩, hv, ?_⟩
              intro a ha
              exact hr a (by simp [ha])
        · have hstep : updateStep fromPeer t p = t := by
            unfold updateStep
            rw [hfp]
            exact if_neg hguard
          rcases ih t with ⟨new, h1, h2, h3⟩
          refine ⟨new, ?_, h2, ?_⟩
          · rw [List.foldl_cons, hstep]
            exact h1
          · intro d hd
            rcases h3 d hd with ⟨⟨q, hq, hq2⟩, hv, hr⟩
            exact ⟨⟨q, List.mem_cons_of_mem _ hq, hq2⟩, hv, hr⟩

theorem update_remaining (fromPeer : JsonPeer → Option ApiClient)
    (pk : String) (n : JsonNode) (peers : List JsonPeer) (s : DState) :
    ∃ new : List ApiClient,
      (update fromPeer pk n peers s).remaining_api_clients =
        s.remaining_api_clients ++ new ∧
      (new.map ApiClient.node_host).Nodup ∧
      ∀ c ∈ new, (∃ p ∈ peers, fromPeer p = some c) ∧
        c.node_host ∉ s.visited_hosts ∧
        ∀ a ∈ s.remaining_api_clients, c.node_host ≠ a.node_host := by
  unfold update
  exact foldl_updateStep_append fromPeer peers
    { s with
        public_key_to_node_info_map :=
          dictInsert pk n s.public_key_to_node_info_map }

theorem applyMerge_not_reachable (fromPeer : JsonPeer → Option ApiClient)
    (r : ProbeResult) (s : DState) (h : r.is_reachable = false) :
    applyMerge fromPeer r s =
      { s with busy_thread_count := s.busy_thread_count - 1 } := by
  unfold applyMerge
  rw [h]
  rfl

theorem applyMerge_reachable (fromPeer : JsonPeer → Option ApiClient)
    (r : ProbeResult) (s : DState) (h : r.is_reachable = true) :
    applyMerge fromPeer r s =
      { update fromPeer r.main_public_key r.json_node r.json_peers s with
          busy_thread_count :=
            (update fromPeer r.main_public_key r.json_node r.json_peers s).busy_thread_count - 1 } := by
  unfold applyMerge
  rw [h]
  rfl

theorem step_preserves_atMostOnce (world : ApiClient → ProbeResult)
    (fromPeer : JsonPeer → Option ApiClient) (l : Label) (σ σ₁ : SysState)
    (h : Step world fromPeer l σ σ₁) (hinv : AtMostOnce σ.ds) :
    AtMostOnce σ₁.ds := by
  cases h with
  | popOk c σ t hp =>
      rcases popNext_some _ _ _ hp with ⟨h1, h2, -, -, h5⟩
      have hsub : List.Sublist (c :: t.remaining_api_clients)
          σ.ds.remaining_api_clients := h5.sublist
      have hmap : ((c :: t.remaining_api_clients).map ApiClient.node_host).Nodup :=
        List.Nodup.sublist (hsub.map _) hinv.1
      rw [List.map_cons] at hmap
      refine ⟨hmap.of_cons, ?_⟩
      intro d hd
      have hdσ : d ∈ σ.ds.remaining_api_clients :=
        hsub.subset (List.mem_cons_of_mem _ hd)
      have hdc : d.node_host ≠ c.node_host := by
        intro hEq
        exact (List.nodup_cons.mp hmap).1 (hEq ▸ List.mem_map_of_mem _ hd)
      rw [h2]
      intro hmem
      rcases Finset.mem_insert.mp hmem with hEq | hmem2
      · exact hdc hEq
      · exact hinv.2 d hdσ hmem2
  | popNone σ t hne hp =>
      rw [popNext_none _ _ hp]
      exact ⟨by simp, by simp⟩
  | doMerge c σ hc =>
      rcases hr : (world c).is_reachable with _ | _
      · rw [applyMerge_not_reachable _ _ _ hr]
        exact ⟨hinv.1, hinv.2⟩
      · rw [applyMerge_reachable _ _ _ hr]
        rcases update_remaining fromPeer (world c).main_public_key (world c).json_node
          (world c).json_peers σ.ds with ⟨new, h1, h2, h3⟩
        constructor
        · show ((update fromPeer _ _ _ σ.ds).remaining_api_clients.map
            ApiClient.node_host).Nodup
          rw [h1, List.map_append]
          rw [List.nodup_append]
          refine ⟨hinv.1, h2, ?_⟩
          intro x hx hx2
          rcases List.mem_map.mp hx with ⟨a, ha, rfl⟩
          rcases List.mem_map.mp hx2 with ⟨d, hd, hdx⟩
          exact (h3 d hd).2.2 a ha hdx
        · show ∀ d ∈ (update fromPeer _ _ _ σ.ds).remaining_api_clients,
            d.node_host ∉ (update fromPeer _ _ _ σ.ds).visited_hosts
          rw [h1, update_visited]
          intro d hd
          rcases List.mem_append.mp hd with hd1 | hd2
          · exact hinv.2 d hd1
          · exact (h3 d hd2).2.1

/-- C5 (amended): peer insertions performed by `_update` do check, at
insertion time, that the host is neither in `visited_hosts` nor already
queued, and every pop/merge step preserves the at-most-once invariant
(each host occurs at most once among queued hosts and is absent from the
visited set while queued).  The initial seeding in `discover`, however,
performs no such check, so the invariant holds for a run only when the
catalog's seed hosts are pairwise distinct — seeding with distinct hosts
establishes the invariant. -/
theorem C5_queue_visited_invariant (world : ApiClient → ProbeResult)
    (fromPeer : JsonPeer → Option ApiClient) :
    (∀ (fp : JsonPeer → Option ApiClient) (t : DState) (p : JsonPeer),
        updateStep fp t p = t ∨
        ∃ c, fp p = some c ∧ c.node_host ∉ t.visited_hosts ∧
          (∀ a ∈ t.remaining_api_clients, c.node_host ≠ a.node_host) ∧
          updateStep fp t p =
            { t with remaining_api_clients := t.remaining_api_clients ++ [c] }) ∧
    (∀ l σ σ₁, Step world fromPeer l σ σ₁ → AtMostOnce σ.ds → AtMostOnce σ₁.ds) ∧
    (∀ hosts : List String, hosts.Nodup → AtMostOnce (seedState hosts)) := by
  refine ⟨?_, ?_, ?_⟩
  · intro fp t p
    rcases hfp : fp p with _ | c
    · left
      unfold updateStep
      rw [hfp]
    · by_cases hguard : c.node_host ∉ t.visited_hosts ∧
          ¬ (t.remaining_api_clients.any fun a => c.node_host = a.node_host)
      · right
        refine ⟨c, rfl, hguard.1, ?_, ?_⟩
        · intro a ha hEq
          exact hguard.2 (List.any_eq_true.mpr ⟨a, ha, decide_eq_true hEq⟩)
        · unfold updateStep
          rw [hfp]
          exact if_pos hguard
      · left
        unfold updateStep
        rw [hfp]
        exact if_neg hguard
  · exact fun l σ σ₁ h hinv => step_preserves_atMostOnce _ _ _ _ _ h hinv
  · intro hosts hnd
    constructor
    · show ((seedClients hosts).map ApiClient.node_host).Nodup
      rw [seedClients_hosts]
      exact hnd
    · intro c hc
      simp [seedState]

theorem C5_queue_visited_invariant_witness :
    AtMostOnce (seedState ["a", "b"]) :=
  (C5_queue_visited_invariant demoWorld demoFromPeer).2.2 ["a", "b"] (by decide)

/-- Counterexample to C5 as stated: the initial seeding performs no dedup
check, so a catalog that lists the same host twice yields a freshly seeded
queue in which that host appears twice — the claimed at-most-once
invariant over {queued hosts} ∪ VisitedSet fails at that instant. -/
theorem C5_seed_duplicate_counterexample :
    (seedState ["a", "a"]).remaining_api_clients.map ApiClient.node_host =
      ["a", "a"] ∧
    ¬ AtMostOnce (seedState ["a", "a"]) := by
  constructor
  · rfl
  · decide

theorem dictLookup_dictInsert_self (k : String) (v : JsonNode) :
    ∀ m, dictLookup k (dictInsert k v m) = some v := by
  intro m
  induction m with
  | nil => simp [dictInsert, dictLookup]
  | cons kv rest ih =>
      by_cases h : kv.1 = k
      · simp [dictInsert, dictLookup, h]
      · simp [dictInsert, dictLookup, h, ih]

theorem mem_keys_dictInsert (k : String) (v : JsonNode) (x : String) :
    ∀ m, x ∈ (dictInsert k v m).map Prod.fst →
      x = k ∨ x ∈ m.map Prod.fst := by
  intro m
  induction m with
  | nil => simp [dictInsert]
  | cons kv rest ih =>
      by_cases h : kv.1 = k
      · simp only [dictInsert, if_pos h, List.map_cons, List.mem_cons]
        rintro (rfl | hx)
        · exact Or.inl rfl
        · exact Or.inr (Or.inr hx)
      · simp only [dictInsert, if_neg h, List.map_cons, List.mem_cons]
        rintro (rfl | hx)
        · exact Or.inr (Or.inl rfl)
        · rcases ih hx with h1 | h2
          · exact Or.inl h1
          · exact Or.inr (Or.inr h2)

theorem dictInsert_keys_nodup (k : String) (v : JsonNode) :
    ∀ m, (m.map Prod.fst).Nodup → ((dictInsert k v m).map Prod.fst).Nodup := by
  intro m
  induction m with
  | nil => simp [dictInsert]
  | cons kv rest ih =>
      intro hnd
      rw [List.map_cons, List.nodup_cons] at hnd
      by_cases h : kv.1 = k
      · simp only [dictInsert, if_pos h, List.map_cons]
        rw [List.nodup_cons]
        exact ⟨h ▸ hnd.1, hnd.2⟩
      · simp only [dictInsert, if_neg h, List.map_cons]
        rw [List.nodup_cons]
        refine ⟨?_, ih hnd.2⟩
        intro hmem
        rcases mem_keys_dictInsert k v kv.1 rest hmem with h1 | h2
        · exact h h1
        · exact hnd.1 h2

/-- C6: the result map holds at most one entry per public key (dict-key
uniqueness is preserved by every insertion), the merge of a successful
probe writes the record through a plain dict assignment
(`map[public_key] = json_node`, insert-or-overwrite), and when two merges
store under the same public key the later record fully replaces the
earlier one — last-writer-wins, not a field-wise combination and not a
preference for the earlier record. -/
theorem C6_last_writer_wins (fromPeer : JsonPeer → Option ApiClient) :
    (∀ (k : String) (v : JsonNode) (m : List (String × JsonNode)),
        dictLookup k (dictInsert k v m) = some v) ∧
    (∀ (k : String) (v : JsonNode) (m : List (String × JsonNode)),
        (m.map Prod.fst).Nodup → ((dictInsert k v m).map Prod.fst).Nodup) ∧
    (∀ (pk : String) (n : JsonNode) (peers : List JsonPeer) (s : DState),
        (update fromPeer pk n peers s).public_key_to_node_info_map =
          dictInsert pk n s.public_key_to_node_info_map) ∧
    (∀ (pk : String) (n₁ n₂ : JsonNode) (p₁ p₂ : List JsonPeer) (s : DState),
        dictLookup pk
          (update fromPeer pk n₂ p₂
            (update fromPeer pk n₁ p₁ s)).public_key_to_node_info_map =
          some n₂) := by
  refine ⟨?_, ?_, ?_, ?_⟩
  · exact fun k v m => dictLookup_dictInsert_self k v m
  · exact fun k v m h => dictInsert_keys_nodup k v m h
  · exact fun pk n peers s => update_map fromPeer pk n peers s
  · intro pk n₁ n₂ p₁ p₂ s
    rw [update_map, update_map, dictLookup_dictInsert_self]

/-- A sample node record carrying a given identity name and public key. -/
def nodeNamed (nm pk : String) : JsonNode :=
  { metaDataNetworkId := ""
    identityPublicKey := pk
    identityNodePublicKey := none
    identityName := nm
    networkIdentifier := ""
    publicKey := pk
    extraData := ⟨0, 0, 0⟩ }

theorem C6_last_writer_wins_witness :
    ((dictInsert "k" (nodeNamed "x" "k") []).map Prod.fst).Nodup :=
  (C6_last_writer_wins demoFromPeer).2.1 "k" (nodeNamed "x" "k") [] (by decide)

theorem probeTry_ok_node (b : Bool) (env : ProbeEnv) (node0 : JsonNode)
    (h : env.get_node_info = .ok node0) :
    probeTry b env =
      match identityPhase b env { node0 with extraData := ⟨0, 0, 0⟩ } with
      | .error es => .error es
      | .ok (network, main_public_key, node2) =>
          fetchPhase b env network main_public_key node2 := by
  unfold probeTry
  rw [h]

theorem identityPhase_error (b : Bool) (env : ProbeEnv) (n1 : JsonNode)
    (e : ExcKind) (st : TryState)
    (h : identityPhase b env n1 = .error (e, st)) : st.is_reachable = false := by
  unfold identityPhase at h
  split at h
  · split at h
    · simp only [Except.error.injEq, Prod.mk.injEq] at h
      rw [← h.2]
    · split at h
      · simp only [Except.error.injEq, Prod.mk.injEq] at h
        rw [← h.2]
      · simp at h
  · split at h
    · simp only [Except.error.injEq, Prod.mk.injEq] at h
      rw [← h.2]
    · simp at h

/-- C3: a hard failure — `get_node_info` failing, or identity resolution
failing — leaves `is_reachable = false`, and the closing merge section then
performs no map mutation and no queue mutation at all: it only decrements
`busy_thread_count`. -/
theorem C3_hard_failure_containment (b : Bool) (env : ProbeEnv)
    (fromPeer : JsonPeer → Option ApiClient) (s : DState) :
    (∀ e, env.get_node_info = .error e →
        (runProbe b env).is_reachable = false) ∧
    (∀ node0 e st, env.get_node_info = .ok node0 →
        identityPhase b env { node0 with extraData := ⟨0, 0, 0⟩ } = .error (e, st) →
        (runProbe b env).is_reachable = false) ∧
    (∀ r : ProbeResult, r.is_reachable = false →
        applyMerge fromPeer r s =
          { s with busy_thread_count := s.busy_thread_count - 1 }) := by
  refine ⟨?_, ?_, ?_⟩
  · intro e h
    unfold runProbe probeTry
    rw [h]
  · intro node0 e st h hid
    unfold runProbe
    rw [probeTry_ok_node b env node0 h, hid]
    exact identityPhase_error b env _ e st hid
  · exact fun r hr => applyMerge_not_reachable fromPeer r s hr

/-- A probe environment in which the very first call, `get_node_info`,
raises a timeout. -/
def demoEnvHard : ProbeEnv :=
  { get_node_info := .error .timeoutError
    locate_nem := fun _ => .error .requestException
    locate_symbol := fun _ => .error .requestException
    get_account_info_forwarded := fun _ => .error .requestException
    get_account_info := fun _ => .error .requestException
    get_peers := .error .requestException
    get_chain_height := .error .requestException
    get_finalization_height := .error .requestException }

theorem C3_hard_failure_containment_witness :
    (runProbe false demoEnvHard).is_reachable = false :=
  (C3_hard_failure_containment false demoEnvHard demoFromPeer (seedState [])).1
    .timeoutError rfl

/-- C7: every exception the probe protocol can raise — any of the failure
kinds of any of the oracle calls (node-info, network lookup, forwarded and
plain strong-client account queries, peer list, chain height,
finalization) — is caught by the worker's `except` clause: one worker
iteration never propagates an exception, and always continues into the
merge section with the probe outcome observed at the failure point. -/
theorem C7_exception_containment (fromPeer : JsonPeer → Option ApiClient)
    (b : Bool) (env : ProbeEnv) (s : DState) :
    workerIteration fromPeer b env s =
      .ok (applyMerge fromPeer (runProbe b env) s) := by
  unfold workerIteration runProbe
  rcases h : probeTry b env with ⟨e, st⟩ | r
  · cases e <;> rfl
  · rfl

theorem runProbe_identity_error (b : Bool) (env : ProbeEnv) (node0 : JsonNode)
    (e : ExcKind) (st : TryState)
    (hNode : env.get_node_info = .ok node0)
    (hid : identityPhase b env { node0 with extraData := ⟨0, 0, 0⟩ } = .error (e, st)) :
    runProbe b env = ⟨st.is_reachable, st.main_public_key, st.json_node, []⟩ := by
  unfold runProbe
  rw [probeTry_ok_node b env node0 hNode, hid]

theorem identityPhase_nem_locate_error (env : ProbeEnv) (n1 : JsonNode)
    (e : ExcKind)
    (hl : env.locate_nem n1.metaDataNetworkId = .error e) :
    identityPhase true env n1 = .error (e, ⟨false, n1, ""⟩) := by
  unfold identityPhase
  rw [hl]
  rfl

theorem identityPhase_nem_account_error (env : ProbeEnv) (n1 : JsonNode)
    (network : Network) (e : ExcKind)
    (hl : env.locate_nem n1.metaDataNetworkId = .ok network)
    (ha : env.get_account_info_forwarded
        (network.public_key_to_address n1.identityPublicKey) = .error e) :
    identityPhase true env n1 = .error (e, ⟨false, n1, ""⟩) := by
  unfold identityPhase
  rw [hl]
  simp only [ha]
  rfl

/-- C10: on a NEM network the probe's identity resolution consults the
randomly drawn strong client with `get_account_info(..., forwarded=True)`
after looking the network up by the reported network id, and both happen
before `is_reachable` is set: reachability implies both calls succeeded,
and a failure of either one is a hard failure — `is_reachable` stays
`false` and the merge section creates no result-map entry and enqueues no
peers, even though the node itself answered `get_node_info`. -/
theorem C10_nem_strong_client_identity (env : ProbeEnv)
    (fromPeer : JsonPeer → Option ApiClient) (s : DState) (node0 : JsonNode)
    (hNode : env.get_node_info = .ok node0) :
    ((runProbe true env).is_reachable = true →
        ∃ network ai, env.locate_nem node0.metaDataNetworkId = .ok network ∧
          env.get_account_info_forwarded
            (network.public_key_to_address node0.identityPublicKey) = .ok ai) ∧
    (∀ e, env.locate_nem node0.metaDataNetworkId = .error e →
        (runProbe true env).is_reachable = false ∧
        applyMerge fromPeer (runProbe true env) s =
          { s with busy_thread_count := s.busy_thread_count - 1 }) ∧
    (∀ network e, env.locate_nem node0.metaDataNetworkId = .ok network →
        env.get_account_info_forwarded
          (network.public_key_to_address node0.identityPublicKey) = .error e →
        (runProbe true env).is_reachable = false ∧
        applyMerge fromPeer (runProbe true env) s =
          { s with busy_thread_count := s.busy_thread_count - 1 }) := by
  refine ⟨?_, ?_, ?_⟩
  · intro hr
    rcases hl : env.locate_nem node0.metaDataNetworkId with e | network
    · have hid := identityPhase_nem_locate_error env
        { node0 with extraData := ⟨0, 0, 0⟩ } e hl
      have hrp := runProbe_identity_error true env node0 e _ hNode hid
      rw [hrp] at hr
      simp at hr
    · rcases ha : env.get_account_info_forwarded
          (network.public_key_to_address node0.identityPublicKey) with e | ai
      · have hid := identityPhase_nem_account_error env
          { node0 with extraData := ⟨0, 0, 0⟩ } network e hl ha
        have hrp := runProbe_identity_error true env node0 e _ hNode hid
        rw [hrp] at hr
        simp at hr
      · exact ⟨network, ai, rfl, ha⟩
  · intro e hl
    have hid := identityPhase_nem_locate_error env
      { node0 with extraData := ⟨0, 0, 0⟩ } e hl
    have hrp := runProbe_identity_error true env node0 e _ hNode hid
    rw [hrp]
    exact ⟨rfl, applyMerge_not_reachable fromPeer _ s rfl⟩
  · intro network e hl ha
    have hid := identityPhase_nem_account_error env
      { node0 with extraData := ⟨0, 0, 0⟩ } network e hl ha
    have hrp := runProbe_identity_error true env node0 e _ hNode hid
    rw [hrp]
    exact ⟨rfl, applyMerge_not_reachable fromPeer _ s rfl⟩

/-- A sample node-info payload with nonzero pre-probe extra data. -/
def demoNode0 : JsonNode :=
  { metaDataNetworkId := "nid"
    identityPublicKey := "ipk"
    identityNodePublicKey := none
    identityName := "name"
    networkIdentifier := "sid"
    publicKey := "pk"
    extraData := ⟨5, 6, 7⟩ }

/-- A probe environment for a NEM node whose network lookup fails. -/
def demoEnvNem : ProbeEnv :=
  { get_node_info := .ok demoNode0
    locate_nem := fun _ => .error .connectionRefusedError
    locate_symbol := fun _ => .error .requestException
    get_account_info_forwarded := fun _ => .error .requestException
    get_account_info := fun _ => .ok none
    get_peers := .ok []
    get_chain_height := .ok 0
    get_finalization_height := .ok 0 }

theorem C10_nem_strong_client_identity_witness :
    (runProbe true demoEnvNem).is_reachable = false ∧
    applyMerge demoFromPeer (runProbe true demoEnvNem) (seedState []) =
      { seedState [] with
          busy_thread_count := (seedState []).busy_thread_count - 1 } :=
  (C10_nem_strong_client_identity demoEnvNem demoFromPeer (seedState [])
      demoNode0 rfl).2.1 .connectionRefusedError rfl

/-- Value of `main_account_info.balance if main_account_info else 0`. -/
def balanceOrZero (main_account_info : Option AccountInfo) : Nat :=
  match main_account_info with
  | some info => info.balance
  | none => 0

theorem fetchPhase_peers_error (b : Bool) (env : ProbeEnv) (network : Network)
    (mpk : String) (node2 : JsonNode) (e : ExcKind)
    (hp : env.get_peers = .error e) :
    fetchPhase b env network mpk node2 = .error (e, ⟨true, node2, mpk⟩) := by
  unfold fetchPhase
  rw [hp]

theorem fetchPhase_account_error (b : Bool) (env : ProbeEnv) (network : Network)
    (mpk : String) (node2 : JsonNode) (peers : List JsonPeer) (e : ExcKind)
    (hp : env.get_peers = .ok peers)
    (ha : env.get_account_info (network.public_key_to_address mpk) = .error e) :
    fetchPhase b env network mpk node2 = .error (e, ⟨true, node2, mpk⟩) := by
  unfold fetchPhase
  rw [hp]
  simp only [ha]

theorem fetchPhase_height_error (b : Bool) (env : ProbeEnv) (network : Network)
    (mpk : String) (node2 : JsonNode) (peers : List JsonPeer)
    (mai : Option AccountInfo) (e : ExcKind)
    (hp : env.get_peers = .ok peers)
    (ha : env.get_account_info (network.public_key_to_address mpk) = .ok mai)
    (hh : env.get_chain_height = .error e) :
    fetchPhase b env network mpk node2 =
      .error (e,
        ⟨true,
          { node2 with
              extraData := { node2.extraData with balance := balanceOrZero mai } },
          mpk⟩) := by
  unfold fetchPhase
  rw [hp]
  simp only [ha, hh]
  rfl

theorem fetchPhase_finalization_error (env : ProbeEnv) (network : Network)
    (mpk : String) (node2 : JsonNode) (peers : List JsonPeer)
    (mai : Option AccountInfo) (h : Nat) (e : ExcKind)
    (hp : env.get_peers = .ok peers)
    (ha : env.get_account_info (network.public_key_to_address mpk) = .ok mai)
    (hh : env.get_chain_height = .ok h)
    (hf : env.get_finalization_height = .error e) :
    fetchPhase false env network mpk node2 =
      .error (e,
        ⟨true,
          { node2 with
              extraData :=
                { node2.extraData with balance := balanceOrZero mai, height := h } },
          mpk⟩) := by
  unfold fetchPhase
  rw [hp]
  simp only [ha, hh, hf]
  rfl

theorem probeTry_fetch (b : Bool) (env : ProbeEnv) (node0 : JsonNode)
    (network : Network) (mpk : String) (node2 : JsonNode)
    (hNode : env.get_node_info = .ok node0)
    (hId : identityPhase b env { node0 with extraData := ⟨0, 0, 0⟩ } =
        .ok (network, mpk, node2)) :
    probeTry b env = fetchPhase b env network mpk node2 := by
  rw [probeTry_ok_node b env node0 hNode, hId]

/-- C2: a probe whose `get_node_info` and identity resolution succeed but
whose peer-list, balance, chain-height, or finalization fetch fails still
yields `is_reachable = true` with an empty peer list, and the node record
keeps exactly the default/partial `extraData` values assigned before the
failure point; the merge then still inserts the record into the result map
under the resolved public key, and the empty peer list contributes nothing
to the work queue. -/
theorem C2_partial_retention (b : Bool) (env : ProbeEnv)
    (fromPeer : JsonPeer → Option ApiClient) (s : DState) (node0 : JsonNode)
    (network : Network) (mpk : String) (node2 : JsonNode)
    (hNode : env.get_node_info = .ok node0)
    (hId : identityPhase b env { node0 with extraData := ⟨0, 0, 0⟩ } =
        .ok (network, mpk, node2)) :
    (∀ e, env.get_peers = .error e →
        runProbe b env = ⟨true, mpk, node2, []⟩) ∧
    (∀ peers e, env.get_peers = .ok peers →
        env.get_account_info (network.public_key_to_address mpk) = .error e →
        runProbe b env = ⟨true, mpk, node2, []⟩) ∧
    (∀ peers mai e, env.get_peers = .ok peers →
        env.get_account_info (network.public_key_to_address mpk) = .ok mai →
        env.get_chain_height = .error e →
        runProbe b env =
          ⟨true, mpk,
            { node2 with
                extraData := { node2.extraData with balance := balanceOrZero mai } },
            []⟩) ∧
    (b = false → ∀ peers mai h e, env.get_peers = .ok peers →
        env.get_account_info (network.public_key_to_address mpk) = .ok mai →
        env.get_chain_height = .ok h →
        env.get_finalization_height = .error e →
        runProbe b env =
          ⟨true, mpk,
            { node2 with
                extraData :=
                  { node2.extraData with balance := balanceOrZero mai, height := h } },
            []⟩) ∧
    (∀ r : ProbeResult, r.is_reachable = true →
        dictLookup r.main_public_key
          (applyMerge fromPeer r s).public_key_to_node_info_map =
          some r.json_node ∧
        (r.json_peers = [] →
          (applyMerge fromPeer r s).remaining_api_clients =
            s.remaining_api_clients)) := by
  refine ⟨?_, ?_, ?_, ?_, ?_⟩
  · intro e hp
    unfold runProbe
    rw [probeTry_fetch b env node0 network mpk node2 hNode hId,
      fetchPhase_peers_error b env network mpk node2 e hp]
  · intro peers e hp ha
    unfold runProbe
    rw [probeTry_fetch b env node0 network mpk node2 hNode hId,
      fetchPhase_account_error b env network mpk node2 peers e hp ha]
  · intro peers mai e hp ha hh
    unfold runProbe
    rw [probeTry_fetch b env node0 network mpk node2 hNode hId,
      fetchPhase_height_error b env network mpk node2 peers mai e hp ha hh]
  · rintro rfl peers mai h e hp ha hh hf
    unfold runProbe
    rw [probeTry_fetch false env node0 network mpk node2 hNode hId,
      fetchPhase_finalization_error env network mpk node2 peers mai h e hp ha hh hf]
  · intro r hr
    constructor
    · rw [applyMerge_reachable fromPeer r s hr]
      show dictLookup r.main_public_key
        (update fromPeer r.main_public_key r.json_node r.json_peers s).public_key_to_node_info_map =
        some r.json_node
      rw [update_map]
      exact dictLookup_dictInsert_self _ _ _
    · intro hpeers
      rw [applyMerge_reachable fromPeer r s hr]
      show (update fromPeer r.main_public_key r.json_node r.json_peers s).remaining_api_clients =
        s.remaining_api_clients
      rw [hpeers]
      rfl

/-- A trivially located network whose address derivation is the identity. -/
def demoNetwork : Network :=
  { public_key_to_address := fun pk => pk }

/-- A probe environment for a Symbol node whose peer-list fetch times out
after node-info and identity resolution succeeded. -/
def demoEnvSoft : ProbeEnv :=
  { get_node_info := .ok demoNode0
    locate_nem := fun _ => .error .requestException
    locate_symbol := fun _ => .ok demoNetwork
    get_account_info_forwarded := fun _ => .error .requestException
    get_account_info := fun _ => .ok none
    get_peers := .error .timeoutError
    get_chain_height := .ok 42
    get_finalization_height := .ok 7 }

theorem C2_partial_retention_witness :
    runProbe false demoEnvSoft =
      ⟨true, "pk", { demoNode0 with extraData := ⟨0, 0, 0⟩ }, []⟩ :=
  (C2_partial_retention false demoEnvSoft demoFromPeer (seedState []) demoNode0
      demoNetwork "pk" { demoNode0 with extraData := ⟨0, 0, 0⟩ } rfl rfl).1
    .timeoutError rfl

theorem workerLoop_seed_nil (world : ApiClient → ProbeResult)
    (fromPeer : JsonPeer → Option ApiClient) (fuel : Nat) :
    workerLoop world fromPeer fuel (seedState []) = seedState [] := by
  cases fuel with
  | zero => rfl
  | succ n =>
      unfold workerLoop
      rw [if_neg]
      intro hcond
      rcases hcond with h | h
      · exact h rfl
      · exact h rfl

/-- Counterexample to C8 as stated: with an empty catalog, `discover` does
not abort — it still launches its `thread_count` worker threads (16 here,
the default), each worker loop exits at once (empty queue, zero busy
count), and `discover` returns normally with an empty result map. -/
theorem C8_empty_catalog_counterexample :
    (discover demoWorld demoFromPeer [] 16 5).1 = 16 ∧
    (discover demoWorld demoFromPeer [] 16 5).2.public_key_to_node_info_map = [] := by
  constructor
  · rfl
  · rw [show (discover demoWorld demoFromPeer [] 16 5).2 = seedState [] from
      workerLoop_seed_nil demoWorld demoFromPeer 5]
    rfl

/-- C8 (amended): seeding from an empty catalog is not run-fatal:
`discover` has no abort path — it launches its workers regardless, every
worker loop exits immediately because the queue is empty and the busy
counter is zero, and `discover` returns normally with an empty result map.
(A missing resource directory fails earlier, in `main`, before the
downloader exists; that failure is outside `discover`.) -/
theorem C8_empty_catalog_no_abort (world : ApiClient → ProbeResult)
    (fromPeer : JsonPeer → Option ApiClient) (thread_count fuel : Nat) :
    discover world fromPeer [] thread_count fuel = (thread_count, seedState []) ∧
    (discover world fromPeer [] thread_count fuel).2.public_key_to_node_info_map =
      [] := by
  unfold discover
  rw [workerLoop_seed_nil]
  exact ⟨rfl, rfl⟩

/-- A result map holding three records whose identity names arrived in the
order "b", "a", "c". -/
def c9State : DState :=
  { visited_hosts := ∅
    remaining_api_clients := []
    public_key_to_node_info_map :=
      dictInsert "k3" (nodeNamed "c" "k3")
        (dictInsert "k2" (nodeNamed "a" "k2")
          (dictInsert "k1" (nodeNamed "b" "k1") []))
    busy_thread_count := 0 }

/-- C9 (code bug): `save` writes the records in map insertion order, not
ordered by identity name.  `json.dump(..., sort_keys='identity.name')`
passes a truthy string where a boolean is expected: it alphabetizes the
keys inside each serialized object and never reorders the record list.
Records inserted in name order "b", "a", "c" are written back as
"b", "a", "c" — neither ascending nor descending name order. -/
theorem C9_save_insertion_order :
    (save c9State).map JsonNode.identityName = ["b", "a", "c"] ∧
    (save c9State).map JsonNode.identityName ≠ ["a", "b", "c"] ∧
    (save c9State).map JsonNode.identityName ≠ ["c", "b", "a"] := by
  refine ⟨rfl, ?_, ?_⟩ <;> decide

/-- Well-formedness of a system state relative to a finite host universe
`U`: all visited hosts and all queued hosts lie in `U`, and the busy
counter equals the number of in-flight probes. -/
def Good (U : Finset String) (σ : SysState) : Prop :=
  σ.ds.visited_hosts ⊆ U ∧
  (∀ c ∈ σ.ds.remaining_api_clients, c.node_host ∈ U) ∧
  σ.ds.busy_thread_count = σ.inflight.length

instance (U : Finset String) (σ : SysState) : Decidable (Good U σ) := by
  unfold Good
  infer_instance

/-- The peer graph is contained in the finite host universe `U`: every
peer client constructible from any probe's peer list has its host in
`U`. -/
def PeersIn (U : Finset String) (world : ApiClient → ProbeResult)
    (fromPeer : JsonPeer → Option ApiClient) : Prop :=
  ∀ (a : ApiClient) (p : JsonPeer) (c : ApiClient),
    p ∈ (world a).json_peers → fromPeer p = some c → c.node_host ∈ U

/-- Termination measure: never-visited hosts dominate, then the busy
counter, then the queue length. -/
def discMeasure (U : Finset String) (σ : SysState) : Nat :=
  (U.card - σ.ds.visited_hosts.card) * (U.card + 2) +
  σ.ds.busy_thread_count.toNat * (U.card + 1) +
  σ.ds.remaining_api_clients.length

theorem step_preserves_good (U : Finset String)
    (world : ApiClient → ProbeResult) (fromPeer : JsonPeer → Option ApiClient)
    (l : Label) (σ σ₁ : SysState) (hP : PeersIn U world fromPeer)
    (h : Step world fromPeer l σ σ₁) (hg : Good U σ) : Good U σ₁ := by
  obtain ⟨hv, hq, hb⟩ := hg
  cases h with
  | popOk c σ t hp =>
      rcases popNext_some _ _ _ hp with ⟨h1, h2, h3, -, h5⟩
      refine ⟨?_, ?_, ?_⟩
      · rw [h2]
        exact Finset.insert_subset (hq c (h5.subset (List.mem_cons_self _ _))) hv
      · intro d hd
        exact hq d (h5.subset (List.mem_cons_of_mem _ hd))
      · show t.busy_thread_count = ((c :: σ.inflight).length : Int)
        rw [h3, hb, List.length_cons]
        push_cast
        ring
  | popNone σ t hne hp =>
      rw [popNext_none _ _ hp]
      exact ⟨hv, by simp, hb⟩
  | doMerge c σ hc =>
      have hlen : 0 < σ.inflight.length :=
        List.length_pos.mpr (List.ne_nil_of_mem hc)
      have herase : (σ.inflight.erase c).length = σ.inflight.length - 1 :=
        List.length_erase_of_mem hc
      rcases hr : (world c).is_reachable with _ | _
      · rw [applyMerge_not_reachable fromPeer _ _ hr]
        refine ⟨hv, hq, ?_⟩
        show σ.ds.busy_thread_count - 1 = ((σ.inflight.erase c).length : Int)
        rw [herase]
        omega
      · rw [applyMerge_reachable fromPeer _ _ hr]
        rcases update_remaining fromPeer (world c).main_public_key
          (world c).json_node (world c).json_peers σ.ds with ⟨new, h1, h2, h3⟩
        refine ⟨?_, ?_, ?_⟩
        · show (update fromPeer _ _ _ σ.ds).visited_hosts ⊆ U
          rw [update_visited]
          exact hv
        · show ∀ d ∈ (update fromPeer _ _ _ σ.ds).remaining_api_clients,
            d.node_host ∈ U
          rw [h1]
          intro d hd
          rcases List.mem_append.mp hd with hd1 | hd2
          · exact hq d hd1
          · rcases (h3 d hd2).1 with ⟨p, hpmem, hpc⟩
            exact hP c p d hpmem hpc
        · show (update fromPeer _ _ _ σ.ds).busy_thread_count - 1 =
            ((σ.inflight.erase c).length : Int)
          rw [update_busy, herase]
          omega

theorem step_decreases_measure (U : Finset String)
    (world : ApiClient → ProbeResult) (fromPeer : JsonPeer → Option ApiClient)
    (l : Label) (σ σ₁ : SysState) (hP : PeersIn U world fromPeer)
    (h : Step world fromPeer l σ σ₁) (hg : Good U σ) :
    discMeasure U σ₁ < discMeasure U σ := by
  obtain ⟨hv, hq, hb⟩ := hg
  cases h with
  | popOk c σ t hp =>
      rcases popNext_some _ _ _ hp with ⟨h1, h2, h3, -, h5⟩
      have hcard : t.visited_hosts.card = σ.ds.visited_hosts.card + 1 := by
        rw [h2]
        exact Finset.card_insert_of_not_mem h1
      have hcardle : σ.ds.visited_hosts.card + 1 ≤ U.card := by
        rw [← hcard]
        refine Finset.card_le_card ?_
        rw [h2]
        exact Finset.insert_subset (hq c (h5.subset (List.mem_cons_self _ _))) hv
      have hql : t.remaining_api_clients.length + 1 ≤
          σ.ds.remaining_api_clients.length := by
        have := h5.length_le
        simpa using this
      have hbusy : t.busy_thread_count.toNat =
          σ.ds.busy_thread_count.toNat + 1 := by
        rw [h3, hb]
        omega
      unfold discMeasure
      dsimp only
      rw [hcard, hbusy]
      have hrw : (U.card - σ.ds.visited_hosts.card) * (U.card + 2) =
          (U.card - (σ.ds.visited_hosts.card + 1)) * (U.card + 2) +
            (U.card + 2) := by
        have hx : U.card - σ.ds.visited_hosts.card =
            (U.card - (σ.ds.visited_hosts.card + 1)) + 1 := by omega
        rw [hx]
        ring
      rw [hrw]
      have hmul : (σ.ds.busy_thread_count.toNat + 1) * (U.card + 1) =
          σ.ds.busy_thread_count.toNat * (U.card + 1) + (U.card + 1) := by ring
      rw [hmul]
      linarith [hql]
  | popNone σ t hne hp =>
      have hlen : 0 < σ.ds.remaining_api_clients.length :=
        List.length_pos.mpr hne
      rw [popNext_none _ _ hp]
      unfold discMeasure
      dsimp only
      simp only [List.length_nil]
      linarith [hlen]
  | doMerge c σ hc =>
      have hlen : 0 < σ.inflight.length :=
        List.length_pos.mpr (List.ne_nil_of_mem hc)
      have hb1 : 1 ≤ σ.ds.busy_thread_count.toNat := by
        rw [hb]
        omega
      have htn : (σ.ds.busy_thread_count - 1).toNat =
          σ.ds.busy_thread_count.toNat - 1 := by
        rw [hb]
        omega
      have hmul : σ.ds.busy_thread_count.toNat * (U.card + 1) =
          (σ.ds.busy_thread_count.toNat - 1) * (U.card + 1) + (U.card + 1) := by
        have hx : σ.ds.busy_thread_count.toNat =
            (σ.ds.busy_thread_count.toNat - 1) + 1 := by omega
        nth_rewrite 1 [hx]
        ring
      rcases hr : (world c).is_reachable with _ | _
      · rw [applyMerge_not_reachable fromPeer _ _ hr]
        unfold discMeasure
        dsimp only
        rw [htn, hmul]
        linarith
      · rw [applyMerge_reachable fromPeer _ _ hr]
        rcases update_remaining fromPeer (world c).main_public_key
          (world c).json_node (world c).json_peers σ.ds with ⟨new, h1, h2, h3⟩
        have hnewlen : new.length ≤ U.card := by
          have h4 : (new.map ApiClient.node_host).toFinset ⊆ U := by
            intro x hx
            rcases List.mem_map.mp (List.mem_toFinset.mp hx) with ⟨d, hd, rfl⟩
            rcases (h3 d hd).1 with ⟨p, hpmem, hpc⟩
            exact hP c p d hpmem hpc
          have h6 : (new.map ApiClient.node_host).toFinset.card = new.length := by
            rw [List.toFinset_card_of_nodup h2, List.length_map]
          rw [← h6]
          exact Finset.card_le_card h4
        unfold discMeasure
        dsimp only
        rw [update_visited, update_busy, h1, List.length_append, htn, hmul]
        linarith [hnewlen]

theorem run_length_bound (U : Finset String)
    (world : ApiClient → ProbeResult) (fromPeer : JsonPeer → Option ApiClient)
    (hP : PeersIn U world fromPeer) :
    ∀ σ ls σ₂, Run world fromPeer σ ls σ₂ → Good U σ →
      ls.length ≤ discMeasure U σ := by
  intro σ ls σ₂ h
  induction h with
  | nil σ => exact fun _ => Nat.zero_le _
  | cons l σ σ₁ σ₂ ls hstep hrun ih =>
      intro hg
      have hg1 := step_preserves_good U world fromPeer l σ σ₁ hP hstep hg
      have hd := step_decreases_measure U world fromPeer l σ σ₁ hP hstep hg
      have hih := ih hg1
      rw [List.length_cons]
      omega

theorem step_progress (U : Finset String)
    (world : ApiClient → ProbeResult) (fromPeer : JsonPeer → Option ApiClient)
    (σ : SysState) (hg : Good U σ)
    (hcond : σ.ds.remaining_api_clients ≠ [] ∨ σ.ds.busy_thread_count ≠ 0) :
    ∃ l σ₁, Step world fromPeer l σ σ₁ := by
  rcases hcond with hne | hb0
  · rcases hpop : popNext σ.ds with ⟨o, t⟩
    cases o with
    | none => exact ⟨.popNone, ⟨t, σ.inflight⟩, Step.popNone σ t hne hpop⟩
    | some c => exact ⟨.popOk c, ⟨t, c :: σ.inflight⟩, Step.popOk c σ t hpop⟩
  · obtain ⟨-, -, hb⟩ := hg
    cases hfl : σ.inflight with
    | nil =>
        exfalso
        apply hb0
        rw [hb, hfl]
        rfl
    | cons c rest =>
        exact ⟨.doMerge c, _,
          Step.doMerge c σ (by rw [hfl]; exact List.mem_cons_self _ _)⟩

/-- C4: over any finite host universe containing the seeds and the whole
peer graph, every interleaved run of the discovery engine is finite — its
length is bounded by a measure of the initial state, because each
successful pop moves a fresh host into the monotonically growing visited
set, only never-visited, not-currently-queued hosts are ever enqueued, and
each merge retires one in-flight probe.  Moreover the loop condition
(queue non-empty or busy counter non-zero) always enables a further step,
so maximal runs end exactly when the queue is empty and the busy counter
is zero. -/
theorem C4_termination (U : Finset String)
    (world : ApiClient → ProbeResult) (fromPeer : JsonPeer → Option ApiClient)
    (hP : PeersIn U world fromPeer) :
    (∀ σ ls σ₂, Run world fromPeer σ ls σ₂ → Good U σ →
        ls.length ≤ discMeasure U σ) ∧
    (∀ σ, Good U σ →
        (σ.ds.remaining_api_clients ≠ [] ∨ σ.ds.busy_thread_count ≠ 0) →
        ∃ l σ₁, Step world fromPeer l σ σ₁) :=
  ⟨run_length_bound U world fromPeer hP,
    fun σ hg hcond => step_progress U world fromPeer σ hg hcond⟩

/-- The three states of a one-seed demonstration run. -/
def c4Init : SysState := ⟨seedState ["a"], []⟩

def c4Mid : SysState := ⟨w1State, [⟨"a"⟩]⟩

def c4End : SysState :=
  ⟨applyMerge demoFromPeer (demoWorld ⟨"a"⟩) w1State, []⟩

theorem C4_termination_witness :
    ([Label.popOk ⟨"a"⟩, Label.doMerge ⟨"a"⟩].length ≤
      discMeasure {"a"} c4Init) :=
  (C4_termination {"a"} demoWorld demoFromPeer
      (fun _ p _ hp _ => absurd hp (List.not_mem_nil p))).1
    c4Init _ c4End
    (Run.cons _ _ c4Mid _ _
      (Step.popOk ⟨"a"⟩ c4Init w1State (by decide))
      (Run.cons _ _ c4End _ _
        (Step.doMerge ⟨"a"⟩ c4Mid (by decide))
        (Run.nil _)))
    (by decide)

end NodeDiscovery
